import Mathlib

/-!
Verification of the spotlight explicit-feedback factorization example
(`src/examples/movielens_explicit.ipynb`).

The notebook prints the source of `BilinearNet.__init__`, `BilinearNet.forward`
and `regression_loss`; those are embedded here directly.  Ratings and latent
parameters are modelled as rationals.  The train/test splitter and the helper
layers (`ScaledEmbedding`, `ZeroEmbedding`, `assert_no_grad`) are only called
from the notebook, so they are modelled from the specification where marked.
-/

namespace Spotlight

/-- An interaction record: `(user_index, item_index, rating)`. -/
structure Interaction where
  user_index : Nat
  item_index : Nat
  rating : ℚ
deriving DecidableEq, Repr

instance : Inhabited Interaction := ⟨⟨0, 0, 0⟩⟩

/-- An interaction store: an ordered collection of interactions together with
the derived scalars `num_users` and `num_items`, preserved through splits. -/
structure Interactions where
  num_users : Nat
  num_items : Nat
  records : List Interaction
deriving DecidableEq, Repr

/-- The latent parameter table of `BilinearNet`: user/item embedding rows and
bias scalars, indexed by user/item index, plus the configured sizes. -/
structure BilinearNet where
  num_users : Nat
  num_items : Nat
  embedding_dim : Nat
  user_embeddings : Nat → List ℚ
  item_embeddings : Nat → List ℚ
  user_biases : Nat → ℚ
  item_biases : Nat → ℚ

/-- A single embedding-table lookup.  Modelled from the spec: the embedding
layers (`ScaledEmbedding`, subclassing the backend embedding layer) are not
under `src/`; per §4.2 a lookup fails with IndexOutOfRange when the index is
not below the size configured at construction. -/
def embLookup {α : Type} (num : Nat) (table : Nat → α) (i : Nat) : Option α :=
  if i < num then some (table i) else none

/-- Batched embedding lookup, one row per index; fails if any index fails. -/
def lookupAll {α : Type} (num : Nat) (table : Nat → α) : List Nat → Option (List α)
  | [] => some []
  | i :: rest =>
    match embLookup num table i, lookupAll num table rest with
    | some v, some vs => some (v :: vs)
    | _, _ => none

/-- `BilinearNet.forward` from the notebook: look up user/item embeddings and
biases, take the rowwise product-sum (`(user_embedding * item_embedding).sum(1)`),
and return `dot + user_bias + item_bias` elementwise. -/
def BilinearNet.forward (net : BilinearNet) (user_ids item_ids : List Nat) :
    Option (List ℚ) :=
  match lookupAll net.num_users net.user_embeddings user_ids,
        lookupAll net.num_items net.item_embeddings item_ids,
        lookupAll net.num_users net.user_biases user_ids,
        lookupAll net.num_items net.item_biases item_ids with
  | some ue, some ie, some ub, some ib =>
    let dot := List.zipWith (fun u v => (List.zipWith (fun x y => x * y) u v).sum) ue ie
    some (List.zipWith (fun x y => x + y) (List.zipWith (fun x y => x + y) dot ub) ib)
  | _, _, _, _ => none

/-- Modelled from the spec: `ScaledEmbedding` (not under `src/`) is an
embedding layer whose weights come from a zero-mean scaled random source; the
source is abstracted as a function `weights : row → column → ℚ`, and each row
has the configured dimension. -/
def ScaledEmbedding (dim : Nat) (weights : Nat → Nat → ℚ) : Nat → List ℚ :=
  fun i => (List.range dim).map (weights i)

/-- Modelled from the spec: `ZeroEmbedding` (not under `src/`) is an embedding
layer initialized with zeros, per the notebook text "Biases should be
initialized with zeros, so they are represented by the ZeroEmbedding layers". -/
def ZeroEmbedding (dim : Nat) : Nat → List ℚ :=
  fun _ => List.replicate dim 0

/-- The default of the `embedding_dim` parameter of `BilinearNet.__init__`. -/
def defaultEmbeddingDim : Nat := 32

/-- `BilinearNet.__init__` from the notebook: both embedding tables are
`ScaledEmbedding`s of the single shared `embedding_dim`, and both bias tables
are `ZeroEmbedding`s of width 1 (read back as scalars). -/
def BilinearNet.init (num_users num_items embedding_dim : Nat)
    (uw iw : Nat → Nat → ℚ) : BilinearNet where
  num_users := num_users
  num_items := num_items
  embedding_dim := embedding_dim
  user_embeddings := ScaledEmbedding embedding_dim uw
  item_embeddings := ScaledEmbedding embedding_dim iw
  user_biases := fun u => (ZeroEmbedding 1 u).headD 0
  item_biases := fun i => (ZeroEmbedding 1 i).headD 0

/-- `BilinearNet.__init__` with `embedding_dim` left at its default. -/
def BilinearNet.initDefault (num_users num_items : Nat)
    (uw iw : Nat → Nat → ℚ) : BilinearNet :=
  BilinearNet.init num_users num_items defaultEmbeddingDim uw iw

/-- A read of the user embedding rows, in state-passing form: the lookup
returns its result together with the (unchanged) table state. -/
def readUserEmbeddings (net : BilinearNet) (ids : List Nat) :
    Option (List (List ℚ)) × BilinearNet :=
  (lookupAll net.num_users net.user_embeddings ids, net)

/-- A read of the item embedding rows, in state-passing form. -/
def readItemEmbeddings (net : BilinearNet) (ids : List Nat) :
    Option (List (List ℚ)) × BilinearNet :=
  (lookupAll net.num_items net.item_embeddings ids, net)

/-- A read of the user biases, in state-passing form. -/
def readUserBiases (net : BilinearNet) (ids : List Nat) :
    Option (List ℚ) × BilinearNet :=
  (lookupAll net.num_users net.user_biases ids, net)

/-- A read of the item biases, in state-passing form. -/
def readItemBiases (net : BilinearNet) (ids : List Nat) :
    Option (List ℚ) × BilinearNet :=
  (lookupAll net.num_items net.item_biases ids, net)

/-- `BilinearNet.forward` with the latent parameter table threaded explicitly
through every access, so that the table state after the call is visible. -/
def BilinearNet.forwardState (net : BilinearNet) (user_ids item_ids : List Nat) :
    Option (List ℚ) × BilinearNet :=
  let s1 := readUserEmbeddings net user_ids
  let s2 := readItemEmbeddings s1.2 item_ids
  let s3 := readUserBiases s2.2 user_ids
  let s4 := readItemBiases s3.2 item_ids
  match s1.1, s2.1, s3.1, s4.1 with
  | some ue, some ie, some ub, some ib =>
    let dot := List.zipWith (fun u v => (List.zipWith (fun x y => x * y) u v).sum) ue ie
    (some (List.zipWith (fun x y => x + y) (List.zipWith (fun x y => x + y) dot ub) ib), s4.2)
  | _, _, _, _ => (none, s4.2)

/-- The `.mean()` reduction of the backend: sum divided by length
(as a rational; the claims only use it on non-empty inputs). -/
def tensorMean (l : List ℚ) : ℚ := l.sum / l.length

/-- The value computed by `regression_loss` once its assertion has passed:
`((observed_ratings - predicted_ratings) ** 2).mean()`. -/
def regressionLossVal (observed predicted : List ℚ) : ℚ :=
  tensorMean (List.zipWith (fun o p => (o - p) ^ 2) observed predicted)

/-- A backend tensor as far as the loss is concerned: its values plus whether
it participates in gradient computation. -/
structure RTensor where
  values : List ℚ
  requires_grad : Bool
deriving DecidableEq, Repr

/-- Modelled from the spec: `assert_no_grad` (not under `src/`) raises when its
argument participates in gradient computation; per §4.3 observed values are
treated as constants during differentiation. -/
def assert_no_grad (t : RTensor) : Option Unit :=
  if t.requires_grad then none else some ()

/-- `regression_loss` from the notebook: assert that the observed ratings carry
no gradient, then return the mean squared difference. -/
def regression_loss (observed predicted : RTensor) : Option ℚ :=
  match assert_no_grad observed with
  | none => none
  | some _ => some (regressionLossVal observed.values predicted.values)

/-- A linear congruential step, the pseudorandom source of the splitter model. -/
def lcg (s : Nat) : Nat := (1664525 * s + 1013904223) % 4294967296

/-- Draw a pseudorandom permutation of `pool` by repeatedly removing the
element at position `state % pool.length`; `fuel` bounds the recursion. -/
def pickPermAux : Nat → Nat → List Nat → List Nat
  | 0, _, _ => []
  | fuel + 1, s, pool =>
    if pool.length = 0 then []
    else
      pool.getD (s % pool.length) 0 :: pickPermAux fuel (lcg s) (pool.eraseIdx (s % pool.length))

/-- A seeded pseudorandom permutation of the positions `0, …, n-1`. -/
def seededPerm (seed n : Nat) : List Nat :=
  pickPermAux n seed (List.range n)

/-- The (train, test) position lists of a split: the first
`round(test_fraction * n)` positions of the seeded permutation go to test, the
remainder to train. -/
def splitPositions (n : Nat) (test_fraction : ℚ) (seed : Nat) : List Nat × List Nat :=
  let perm := seededPerm seed n
  let cutoff := (round (test_fraction * n)).toNat
  (perm.drop cutoff, perm.take cutoff)

/-- Modelled from the spec: `random_train_test_split`
(`spotlight.cross_validation`, not under `src/`) generates a seeded uniformly
pseudorandom permutation of interaction positions, assigns the first
`round(test_fraction * len(store))` positions to test and the rest to train,
and preserves each interaction's values and the store's index-space scalars. -/
def random_train_test_split (store : Interactions) (test_fraction : ℚ) (seed : Nat) :
    Interactions × Interactions :=
  let pos := splitPositions store.records.length test_fraction seed
  ({ store with records := pos.1.map (fun k => store.records.getD k default) },
   { store with records := pos.2.map (fun k => store.records.getD k default) })

/-- When every index is in range, the batched lookup returns the mapped rows. -/
theorem lookupAll_of_forall {α : Type} (num : Nat) (table : Nat → α) :
    ∀ (ids : List Nat), (∀ i ∈ ids, i < num) →
      lookupAll num table ids = some (ids.map table)
  | [], _ => rfl
  | i :: rest, h => by
    have hi : i < num := h i (List.mem_cons_self i rest)
    have hrest := lookupAll_of_forall num table rest (fun j hj => h j (List.mem_cons_of_mem i hj))
    simp [lookupAll, embLookup, hi, hrest]

/-- When some index is out of range, the batched lookup fails. -/
theorem lookupAll_none {α : Type} (num : Nat) (table : Nat → α) :
    ∀ (ids : List Nat), (∃ i ∈ ids, num ≤ i) →
      lookupAll num table ids = none
  | i :: rest, h => by
    rcases h with ⟨j, hj, hnum⟩
    rcases List.mem_cons.mp hj with rfl | hj'
    · have : ¬ j < num := by omega
      simp [lookupAll, embLookup, this]
    · have hrest := lookupAll_none num table rest ⟨j, hj', hnum⟩
      simp only [lookupAll, hrest]
      cases embLookup num table i <;> rfl

/-- The sum of an elementwise combination of two equal-length lists, as an
indexed sum over positions. -/
theorem sum_zipWith_eq_sum_range (f : ℚ → ℚ → ℚ) :
    ∀ (a b : List ℚ), a.length = b.length →
      (List.zipWith f a b).sum
        = ∑ k in Finset.range a.length, f (a.getD k 0) (b.getD k 0)
  | [], [], _ => by simp
  | [], y :: b, h => by simp at h
  | x :: a, [], h => by simp at h
  | x :: a, y :: b, h => by
    have h' : a.length = b.length := by simpa using h
    have ih := sum_zipWith_eq_sum_range f a b h'
    simp only [List.zipWith_cons_cons, List.sum_cons, ih, List.length_cons]
    rw [Finset.sum_range_succ']
    simp [add_comm]

/-- Drawing with enough fuel yields a permutation of the pool. -/
theorem pickPermAux_perm : ∀ (fuel s : Nat) (pool : List Nat),
    pool.length ≤ fuel → (pickPermAux fuel s pool).Perm pool
  | 0, _, pool, h => by
    have hp : pool = [] := List.length_eq_zero.mp (Nat.le_zero.mp h)
    simp [pickPermAux, hp]
  | fuel + 1, s, pool, h => by
    by_cases hp : pool.length = 0
    · have hpool : pool = [] := List.length_eq_zero.mp hp
      simp [pickPermAux, hpool]
    · have hlt : s % pool.length < pool.length := Nat.mod_lt _ (Nat.pos_of_ne_zero hp)
      have herase : (pool.eraseIdx (s % pool.length)).length ≤ fuel := by
        have := List.length_eraseIdx_add_one hlt
        omega
      have ih := pickPermAux_perm fuel (lcg s) (pool.eraseIdx (s % pool.length)) herase
      have hget : pool.getD (s % pool.length) 0 = pool[s % pool.length] := by
        simp [List.getD_eq_getElem?_getD, List.getElem?_eq_getElem hlt]
      have hperm : pool.Perm (pool.getD (s % pool.length) 0 :: pool.eraseIdx (s % pool.length)) := by
        rw [hget]
        have h1 := List.perm_cons_erase (List.getElem_mem hlt)
        have h2 := List.erase_getElem hlt
        exact h1.trans (List.Perm.cons _ h2)
      simp only [pickPermAux, hp, if_false]
      exact (List.Perm.cons _ ih).trans hperm.symm

/-- The seeded permutation is a permutation of the list of positions. -/
theorem seededPerm_perm (seed n : Nat) : (seededPerm seed n).Perm (List.range n) :=
  pickPermAux_perm n seed (List.range n) (by simp)

/-- Mapping position-lookup over all positions recovers the list. -/
theorem map_getD_range {α : Type} (l : List α) (d : α) :
    (List.range l.length).map (fun k => l.getD k d) = l := by
  apply List.ext_getElem
  · simp
  · intro i h1 h2
    simp [List.getD_eq_getElem?_getD, List.getElem?_eq_getElem h2]

/-- Train positions followed by test positions are a permutation of all
positions. -/
theorem splitPositions_append_perm (n : Nat) (f : ℚ) (r : Nat) :
    ((splitPositions n f r).1 ++ (splitPositions n f r).2).Perm (List.range n) := by
  simp only [splitPositions]
  refine List.perm_append_comm.trans ?_
  rw [List.take_append_drop]
  exact seededPerm_perm r n

/-- Train and test positions are disjoint. -/
theorem splitPositions_disjoint (n : Nat) (f : ℚ) (r : Nat) :
    (splitPositions n f r).1.Disjoint (splitPositions n f r).2 := by
  simp only [splitPositions]
  apply List.Disjoint.symm
  apply List.disjoint_of_nodup_append
  rw [List.take_append_drop]
  exact ((seededPerm_perm r n).nodup_iff).mpr (List.nodup_range n)

/-- The train and test position counts add up to the number of positions. -/
theorem splitPositions_length (n : Nat) (f : ℚ) (r : Nat) :
    (splitPositions n f r).1.length + (splitPositions n f r).2.length = n := by
  have hlen : (seededPerm r n).length = n := by
    rw [(seededPerm_perm r n).length_eq, List.length_range]
  simp only [splitPositions, List.length_drop, List.length_take, hlen]
  omega

/-- C5: the split is a deterministic function of its arguments: two calls with
equal store, test fraction and seed yield identical train/test partitions. -/
theorem split_deterministic (S1 S2 : Interactions) (f1 f2 : ℚ) (r1 r2 : Nat)
    (hS : S1 = S2) (hf : f1 = f2) (hr : r1 = r2)
    (hne : S1.records ≠ []) (h0 : 0 < f1) (h1 : f1 < 1) :
    random_train_test_split S1 f1 r1 = random_train_test_split S2 f2 r2 := by
  subst hS; subst hf; subst hr; rfl

/-- The concrete store of the spec's split scenario. -/
def witnessStore : Interactions :=
  ⟨4, 3, [⟨0, 0, 5⟩, ⟨1, 1, 3⟩, ⟨2, 2, 4⟩, ⟨3, 0, 2⟩]⟩

theorem split_deterministic_witness :
    (witnessStore = witnessStore ∧ ((1 : ℚ) / 4) = (1 : ℚ) / 4 ∧ (42 : Nat) = 42
      ∧ witnessStore.records ≠ [] ∧ (0 : ℚ) < 1 / 4 ∧ (1 : ℚ) / 4 < 1)
    ∧ random_train_test_split witnessStore ((1 : ℚ) / 4) 42
        = random_train_test_split witnessStore ((1 : ℚ) / 4) 42 :=
  ⟨⟨rfl, rfl, rfl, by decide, by norm_num, by norm_num⟩,
   split_deterministic witnessStore witnessStore ((1 : ℚ) / 4) ((1 : ℚ) / 4) 42 42
     rfl rfl rfl (by decide) (by norm_num) (by norm_num)⟩

/-- C6: the split partitions the store: the record counts add up, the combined
train/test records are exactly the original records (so no interaction is
duplicated), and the train/test position sets are disjoint. -/
theorem split_partition (S : Interactions) (f : ℚ) (r : Nat)
    (hne : S.records ≠ []) (h0 : 0 < f) (h1 : f < 1) :
    ((random_train_test_split S f r).1.records.length
        + (random_train_test_split S f r).2.records.length
      = S.records.length)
    ∧ ((random_train_test_split S f r).1.records
        ++ (random_train_test_split S f r).2.records).Perm S.records
    ∧ (splitPositions S.records.length f r).1.Disjoint
        (splitPositions S.records.length f r).2 := by
  refine ⟨?_, ?_, splitPositions_disjoint S.records.length f r⟩
  · simp only [random_train_test_split, List.length_map]
    exact splitPositions_length S.records.length f r
  · simp only [random_train_test_split]
    have hmap := (splitPositions_append_perm S.records.length f r).map
      (fun k => S.records.getD k default)
    rw [List.map_append] at hmap
    rw [map_getD_range] at hmap
    exact hmap

theorem split_partition_witness :
    (witnessStore.records ≠ [] ∧ (0 : ℚ) < 1 / 4 ∧ (1 : ℚ) / 4 < 1)
    ∧ (((random_train_test_split witnessStore ((1 : ℚ) / 4) 42).1.records.length
          + (random_train_test_split witnessStore ((1 : ℚ) / 4) 42).2.records.length
        = witnessStore.records.length)
      ∧ ((random_train_test_split witnessStore ((1 : ℚ) / 4) 42).1.records
          ++ (random_train_test_split witnessStore ((1 : ℚ) / 4) 42).2.records).Perm
            witnessStore.records
      ∧ (splitPositions witnessStore.records.length ((1 : ℚ) / 4) 42).1.Disjoint
          (splitPositions witnessStore.records.length ((1 : ℚ) / 4) 42).2) :=
  ⟨⟨by decide, by norm_num, by norm_num⟩,
   split_partition witnessStore ((1 : ℚ) / 4) 42 (by decide) (by norm_num) (by norm_num)⟩

/-- C1: for every valid pair of indices `(u, i)`, the Bilinear Scorer's
prediction for `(u, i)` is the dot product of user embedding `u` and item
embedding `i` plus user bias `u` plus item bias `i`. -/
theorem forward_single_pred (net : BilinearNet) (u i : Nat)
    (hu : u < net.num_users) (hi : i < net.num_items)
    (hlu : (net.user_embeddings u).length = net.embedding_dim)
    (hli : (net.item_embeddings i).length = net.embedding_dim) :
    net.forward [u] [i] =
      some [(∑ k in Finset.range net.embedding_dim,
              (net.user_embeddings u).getD k 0 * (net.item_embeddings i).getD k 0)
            + net.user_biases u + net.item_biases i] := by
  have h1 := lookupAll_of_forall net.num_users net.user_embeddings [u] (by simpa using hu)
  have h2 := lookupAll_of_forall net.num_items net.item_embeddings [i] (by simpa using hi)
  have h3 := lookupAll_of_forall net.num_users net.user_biases [u] (by simpa using hu)
  have h4 := lookupAll_of_forall net.num_items net.item_biases [i] (by simpa using hi)
  have hdot := sum_zipWith_eq_sum_range (fun x y => x * y)
    (net.user_embeddings u) (net.item_embeddings i) (hlu.trans hli.symm)
  simp [BilinearNet.forward, h1, h2, h3, h4, hdot, hlu]

/-- The concrete scenario net of the spec: D = 2,
`user_embeddings[0] = [1,2]`, `item_embeddings[0] = [3,4]`,
`user_bias[0] = 0.5`, `item_bias[0] = -0.5`. -/
def scenarioNet : BilinearNet where
  num_users := 1
  num_items := 1
  embedding_dim := 2
  user_embeddings := fun _ => [1, 2]
  item_embeddings := fun _ => [3, 4]
  user_biases := fun _ => (1 : ℚ) / 2
  item_biases := fun _ => -((1 : ℚ) / 2)

theorem forward_single_pred_witness :
    (0 < scenarioNet.num_users ∧ 0 < scenarioNet.num_items
      ∧ (scenarioNet.user_embeddings 0).length = scenarioNet.embedding_dim
      ∧ (scenarioNet.item_embeddings 0).length = scenarioNet.embedding_dim)
    ∧ scenarioNet.forward [0] [0] = some [11] := by
  refine ⟨⟨by decide, by decide, by decide, by decide⟩, ?_⟩
  have h := forward_single_pred scenarioNet 0 0 (by decide) (by decide) (by decide) (by decide)
  rw [h]
  norm_num [scenarioNet, Finset.sum_range_succ]

/-- C2: for equal-length index batches with all indices in range, `forward`
returns a batch of predictions of the same length. -/
theorem forward_same_length (net : BilinearNet) (uids iids : List Nat)
    (hlen : uids.length = iids.length)
    (hu : ∀ u ∈ uids, u < net.num_users) (hi : ∀ i ∈ iids, i < net.num_items) :
    ∃ preds, net.forward uids iids = some preds ∧ preds.length = uids.length := by
  have h1 := lookupAll_of_forall net.num_users net.user_embeddings uids hu
  have h2 := lookupAll_of_forall net.num_items net.item_embeddings iids hi
  have h3 := lookupAll_of_forall net.num_users net.user_biases uids hu
  have h4 := lookupAll_of_forall net.num_items net.item_biases iids hi
  refine ⟨List.zipWith (fun x y => x + y)
      (List.zipWith (fun x y => x + y)
        (List.zipWith (fun a b =>
            (List.zipWith (fun x y => x * y)
              (net.user_embeddings a) (net.item_embeddings b)).sum)
          uids iids)
        (List.map net.user_biases uids))
      (List.map net.item_biases iids), ?_, ?_⟩
  · simp [BilinearNet.forward, h1, h2, h3, h4]
  · simp [List.length_zipWith, hlen]

theorem forward_same_length_witness :
    (([0, 0] : List Nat).length = ([0, 0] : List Nat).length
      ∧ (∀ u ∈ ([0, 0] : List Nat), u < scenarioNet.num_users)
      ∧ (∀ i ∈ ([0, 0] : List Nat), i < scenarioNet.num_items))
    ∧ ∃ preds, scenarioNet.forward [0, 0] [0, 0] = some preds
        ∧ preds.length = ([0, 0] : List Nat).length := by
  refine ⟨⟨rfl, by decide, by decide⟩, ?_⟩
  exact forward_same_length scenarioNet [0, 0] [0, 0] rfl (by decide) (by decide)

/-- C7: scoring fails when any user index is at least `num_users` or any item
index is at least `num_items`. -/
theorem forward_index_out_of_range (net : BilinearNet) (uids iids : List Nat)
    (h : (∃ u ∈ uids, net.num_users ≤ u) ∨ ∃ i ∈ iids, net.num_items ≤ i) :
    net.forward uids iids = none := by
  simp only [BilinearNet.forward]
  split
  · rename_i ue ie ub ib hue hie hub hib
    exfalso
    rcases h with h | h
    · rw [lookupAll_none net.num_users net.user_embeddings uids h] at hue
      exact Option.noConfusion hue
    · rw [lookupAll_none net.num_items net.item_embeddings iids h] at hie
      exact Option.noConfusion hie
  · rfl

theorem forward_index_out_of_range_witness :
    ((∃ u ∈ ([1] : List Nat), scenarioNet.num_users ≤ u)
      ∨ ∃ i ∈ ([0] : List Nat), scenarioNet.num_items ≤ i)
    ∧ scenarioNet.forward [1] [0] = none := by
  refine ⟨Or.inl ⟨1, by decide, by decide⟩, ?_⟩
  exact forward_index_out_of_range scenarioNet [1] [0] (Or.inl ⟨1, by decide, by decide⟩)

/-- C8: scoring is a pure read of the latent parameter table: the table state
after a `forward` call is the state before it, and the result is that of the
pure scoring function. -/
theorem forwardState_pure (net : BilinearNet) (uids iids : List Nat) :
    (net.forwardState uids iids).2 = net
    ∧ (net.forwardState uids iids).1 = net.forward uids iids := by
  cases h1 : lookupAll net.num_users net.user_embeddings uids <;>
  cases h2 : lookupAll net.num_items net.item_embeddings iids <;>
  cases h3 : lookupAll net.num_users net.user_biases uids <;>
  cases h4 : lookupAll net.num_items net.item_biases iids <;>
    simp [BilinearNet.forwardState, BilinearNet.forward, readUserEmbeddings,
      readItemEmbeddings, readUserBiases, readItemBiases, h1, h2, h3, h4]

/-- C9: at initialization every user and item bias is zero, the embedding
dimension is one shared configuration constant giving the row length of both
embedding tables, and it defaults to 32. -/
theorem init_zero_biases_shared_dim (nu ni d : Nat) (uw iw : Nat → Nat → ℚ) (u i : Nat) :
    (BilinearNet.init nu ni d uw iw).user_biases u = 0
    ∧ (BilinearNet.init nu ni d uw iw).item_biases i = 0
    ∧ ((BilinearNet.init nu ni d uw iw).user_embeddings u).length
        = (BilinearNet.init nu ni d uw iw).embedding_dim
    ∧ ((BilinearNet.init nu ni d uw iw).item_embeddings i).length
        = (BilinearNet.init nu ni d uw iw).embedding_dim
    ∧ (BilinearNet.initDefault nu ni uw iw).embedding_dim = 32 := by
  simp [BilinearNet.init, BilinearNet.initDefault, ScaledEmbedding, ZeroEmbedding,
    defaultEmbeddingDim]

/-- C3: for equal-length non-empty sequences with a constant observed input,
`regression_loss` returns the arithmetic mean of the squared per-element
differences. -/
theorem regression_loss_is_mean (o p : List ℚ) (go gp : Bool)
    (hg : go = false) (hlen : o.length = p.length) (hne : o ≠ []) :
    regression_loss ⟨o, go⟩ ⟨p, gp⟩
      = some ((∑ k in Finset.range o.length, (o.getD k 0 - p.getD k 0) ^ 2)
          / (o.length : ℚ)) := by
  have hsum := sum_zipWith_eq_sum_range (fun x y => (x - y) ^ 2) o p hlen
  simp [regression_loss, assert_no_grad, hg, regressionLossVal, tensorMean, hsum,
    List.length_zipWith, hlen]

theorem regression_loss_is_mean_witness :
    regression_loss ⟨[(1 : ℚ), 2, 3], false⟩ ⟨[(1 : ℚ), 2, 3], false⟩
        = some ((∑ k in Finset.range ([(1 : ℚ), 2, 3]).length,
            (([(1 : ℚ), 2, 3]).getD k 0 - ([(1 : ℚ), 2, 3]).getD k 0) ^ 2)
          / (([(1 : ℚ), 2, 3]).length : ℚ))
    ∧ regression_loss ⟨[(1 : ℚ), 2, 3], false⟩ ⟨[(1 : ℚ), 2, 3], false⟩ = some 0
    ∧ regression_loss ⟨[(0 : ℚ), 0], false⟩ ⟨[(1 : ℚ), 1], false⟩ = some 1 :=
  ⟨regression_loss_is_mean [(1 : ℚ), 2, 3] [(1 : ℚ), 2, 3] false false rfl rfl
      (by decide),
   by norm_num [regression_loss, assert_no_grad, regressionLossVal, tensorMean],
   by norm_num [regression_loss, assert_no_grad, regressionLossVal, tensorMean]⟩

/-- C4: the regression loss value is symmetric in its two arguments,
non-negative, and zero exactly when the sequences are elementwise equal. -/
theorem regressionLossVal_sym_nonneg_zero (a b : List ℚ)
    (hlen : a.length = b.length) (hne : a ≠ []) :
    regressionLossVal a b = regressionLossVal b a
    ∧ 0 ≤ regressionLossVal a b
    ∧ (regressionLossVal a b = 0 ↔ a = b) := by
  have hval : regressionLossVal a b
      = (∑ k in Finset.range a.length, (a.getD k 0 - b.getD k 0) ^ 2)
          / (a.length : ℚ) := by
    have hsum := sum_zipWith_eq_sum_range (fun x y => (x - y) ^ 2) a b hlen
    simp [regressionLossVal, tensorMean, hsum, List.length_zipWith, hlen]
  have hn : (0 : ℚ) < (a.length : ℚ) := by
    have := List.length_pos.mpr hne
    exact_mod_cast this
  refine ⟨?_, ?_, ?_⟩
  · have hcomm : ∀ x y : ℚ, (x - y) ^ 2 = (y - x) ^ 2 := fun x y => by ring
    simp only [regressionLossVal]
    rw [List.zipWith_comm_of_comm _ hcomm]
  · rw [hval]
    have hs : 0 ≤ ∑ k in Finset.range a.length, (a.getD k 0 - b.getD k 0) ^ 2 :=
      Finset.sum_nonneg fun k _ => sq_nonneg _
    exact div_nonneg hs (le_of_lt hn)
  · rw [hval]
    rw [div_eq_zero_iff]
    constructor
    · rintro (hz | hz)
      · have hall := (Finset.sum_eq_zero_iff_of_nonneg
          (fun k _ => sq_nonneg (a.getD k 0 - b.getD k 0))).mp hz
        apply List.ext_getElem hlen
        intro k h1 h2
        have hk := hall k (Finset.mem_range.mpr h1)
        have hk' : a.getD k 0 - b.getD k 0 = 0 := by
          have h2 : (2 : ℕ) ≠ 0 := by norm_num
          exact (pow_eq_zero_iff h2).mp hk
        have ha := List.getD_eq_getElem a 0 h1
        have hb := List.getD_eq_getElem b 0 h2
        rw [ha, hb] at hk'
        linarith
      · exact absurd hz (ne_of_gt hn)
    · intro hab
      subst hab
      left
      apply Finset.sum_eq_zero
      intro k _
      simp

theorem regressionLossVal_sym_nonneg_zero_witness :
    (([(0 : ℚ), 0]).length = ([(1 : ℚ), 1]).length ∧ ([(0 : ℚ), 0] : List ℚ) ≠ [])
    ∧ (regressionLossVal [(0 : ℚ), 0] [(1 : ℚ), 1]
          = regressionLossVal [(1 : ℚ), 1] [(0 : ℚ), 0]
        ∧ 0 ≤ regressionLossVal [(0 : ℚ), 0] [(1 : ℚ), 1]
        ∧ (regressionLossVal [(0 : ℚ), 0] [(1 : ℚ), 1] = 0
            ↔ ([(0 : ℚ), 0] : List ℚ) = [(1 : ℚ), 1])) :=
  ⟨⟨rfl, by decide⟩,
   regressionLossVal_sym_nonneg_zero [(0 : ℚ), 0] [(1 : ℚ), 1] rfl (by decide)⟩

/-- C10: `regression_loss` asserts its first argument carries no gradient:
it fails for observed inputs participating in gradient computation, and for
constant observed inputs it always returns the loss value. -/
theorem regression_loss_no_grad_precondition (o p : RTensor) :
    (o.requires_grad = true → regression_loss o p = none)
    ∧ (o.requires_grad = false →
        regression_loss o p = some (regressionLossVal o.values p.values)) := by
  constructor
  · intro h
    simp [regression_loss, assert_no_grad, h]
  · intro h
    simp [regression_loss, assert_no_grad, h]

theorem regression_loss_no_grad_precondition_witness :
    regression_loss ⟨[(1 : ℚ)], true⟩ ⟨[(0 : ℚ)], false⟩ = none
    ∧ regression_loss ⟨[(1 : ℚ)], false⟩ ⟨[(0 : ℚ)], false⟩
        = some (regressionLossVal [(1 : ℚ)] [(0 : ℚ)]) :=
  ⟨(regression_loss_no_grad_precondition ⟨[(1 : ℚ)], true⟩ ⟨[(0 : ℚ)], false⟩).1 rfl,
   (regression_loss_no_grad_precondition ⟨[(1 : ℚ)], false⟩ ⟨[(0 : ℚ)], false⟩).2 rfl⟩

end Spotlight
